import Mathlib

/-!
# Verification of the `tongen` vanity-address generator

A shallow embedding of the Go program `main.go` (and the persistence-enabled
variant in the repository) of `ariadata/tongen`, together with proofs of the
specification's claims about it.

The program searches, with several concurrent worker goroutines, for a TON
wallet seed whose derived textual address ends in a configured suffix.
Addresses are base64url text, so strings are modelled as lists of characters
and Go's `strings.ToLower` is modelled by its action on ASCII letters (the
only letters that occur in the address alphabet).

The concurrent part (`main`, `processWallets`, `logProgress`) is embedded as a
small-step interleaving transition system: one atomic step per shared-memory
interaction of the Go code (the non-blocking `select` poll of `stopChan`, the
derivation call, the `printFoundWallet` of the match branch, the strictly
later `once.Do(close(stopChan))`, the `atomic.AddUint64`, and the reporter's
tick).  In particular the print and the close are separate steps, in program
order, exactly as in `processWallets`.
Address derivation (`wallet.FromSeed` etc.) is external to the repository and
is represented by an oracle: each worker carries the list of outcomes its
successive derivation calls will produce.
-/

namespace Tongen

/-- `Config` from `main.go`: the parsed command-line parameters.
`version` and `threads` are Go `int`s, modelled as `Int`. -/
structure Config where
  version : Int
  suffix : List Char
  caseSensitive : Bool
  bounce : Bool
  threads : Int
  testnet : Bool
deriving DecidableEq, Repr

/-- Go's `strings.ToLower` on one character, restricted to ASCII: an upper-case
ASCII letter is mapped to its lower-case form, every other character is kept.
This agrees with Go on the whole base64url address alphabet. -/
def toLowerChar (c : Char) : Char :=
  if 'A' ≤ c ∧ c ≤ 'Z' then Char.ofNat (c.toNat + 32) else c

/-- Go's `strings.ToLower` applied to a whole string (modelled per character). -/
def toLowerStr (s : List Char) : List Char := s.map toLowerChar

/-- Go's `strings.HasSuffix s suffix`: `s` ends with `suffix`. -/
def hasSuffix (s sfx : List Char) : Bool := sfx.isSuffixOf s

/-- The suffix comparison of `processWallets` (`main.go` lines 113–126):
case-sensitive mode compares the raw address against the raw suffix,
case-insensitive mode lowers the whole address and the whole suffix first. -/
def addrMatches (cfg : Config) (addr : List Char) : Bool :=
  if cfg.caseSensitive then hasSuffix addr cfg.suffix
  else hasSuffix (toLowerStr addr) (toLowerStr cfg.suffix)

/-- Result of `parseFlags`: either the process exits through
`flag.PrintDefaults(); os.Exit(1)` (carrying the exit status), or parsing
returns a `Config` and `main` goes on to start the search. -/
inductive ParseResult where
  | usageExit (status : Nat)
  | ok (cfg : Config)
deriving DecidableEq, Repr

/-- `parseFlags` from `main.go` (lines 64–86), applied to the flag values after
`flag.Parse`: if the suffix is empty or the version is neither 4 nor 5, print
the usage summary and exit with status 1; otherwise return the configuration. -/
def parseFlags (version : Int) (suffix : List Char) (caseSensitive bounce : Bool)
    (threads : Int) (testnet : Bool) : ParseResult :=
  if suffix = [] ∨ (version ≠ 4 ∧ version ≠ 5) then .usageExit 1
  else .ok { version := version, suffix := suffix, caseSensitive := caseSensitive,
             bounce := bounce, threads := threads, testnet := testnet }

/-- The thread-count resolution at `main.go` lines 31–35:
`if config.Threads == 0 { config.Threads = runtime.NumCPU() }`. -/
def resolveThreads (threads numCPU : Int) : Int :=
  if threads = 0 then numCPU else threads

/-- How many worker goroutines the loop `for i := 0; i < threads; i++` at
`main.go` lines 51–57 actually starts: `threads` when positive, none
otherwise. -/
def workersStarted (threads : Int) : Nat := threads.toNat

/-! ## The result sink (persistence-enabled variant)

The persistence-enabled variant of the program extends `printFoundWallet`
with an output path: after printing the found wallet to the console it
formats a timestamped record and appends it to the file via
`os.OpenFile(filename, os.O_APPEND|os.O_CREATE|os.O_WRONLY, 0644)`. -/

/-- One attempted file write of `writeToFile`: the target name, the content,
and the `O_APPEND` / `O_CREATE` open flags used. -/
structure FileWrite where
  filename : String
  content : String
  append : Bool
  create : Bool
deriving DecidableEq, Repr

/-- Everything observable that `printFoundWallet` does: the console lines it
prints, the file write it attempts (if any), and the warning it logs when the
write fails. -/
structure SinkOutcome where
  console : List String
  write : Option FileWrite
  warning : Option String
deriving DecidableEq, Repr

/-- The record `fmt.Sprintf("=== FOUND %s ===\nSeed: %s\nAddress: %s\n\n", …)`
appended to the output file. -/
def foundRecord (timestamp phrase address : String) : String :=
  "=== FOUND " ++ timestamp ++ " ===\nSeed: " ++ phrase ++ "\nAddress: " ++ address ++ "\n\n"

/-- The three console lines always printed for a found wallet
(`phrase` is `strings.Join(seed, " ")`). -/
def displayLines (phrase address : String) : List String :=
  ["=== FOUND ===", "Seed phrase: " ++ phrase, "Wallet address: " ++ address]

/-- `printFoundWallet(seed, address, output)` of the persistence-enabled
variant, with the ambient timestamp and the success of the file write passed
in explicitly: print the found wallet, and when an output path is configured
attempt the append-or-create write, logging a warning if it fails and a
confirmation line if it succeeds. -/
def printFoundWallet (phrase address output timestamp : String) (writeOk : Bool) :
    SinkOutcome :=
  if output = "" then
    { console := displayLines phrase address, write := none, warning := none }
  else
    let w : FileWrite :=
      { filename := output, content := foundRecord timestamp phrase address,
        append := true, create := true }
    if writeOk then
      { console := displayLines phrase address ++ ["Results saved to: " ++ output],
        write := some w, warning := none }
    else
      { console := displayLines phrase address, write := some w,
        warning := some "Failed to write to file" }

/-! ## The concurrent search engine as a transition system

`main` starts one `logProgress` goroutine and `threads` copies of
`processWallets`, all sharing an atomic `counter : uint64`, a `stopChan`
channel (closed exactly once through a `sync.Once` when a match is found) and
the immutable `Config`.  We model the shared memory and every goroutine's
control point explicitly, and let an arbitrary interleaving of atomic steps
drive the system.  Derivation outcomes (`wallet.NewSeed` plus
`wallet.FromSeed`, external to the repository) are prescribed per worker by
an oracle list. -/

/-- The outcome of one derivation attempt of a worker's loop body: either the
wallet library returns an error, or it yields a seed phrase and the derived
address text. -/
inductive DeriveOutcome where
  | fail
  | ok (seed : List Char) (addr : List Char)
deriving DecidableEq, Repr

/-- Control state of one `processWallets` goroutine.  `done` is the (ghost)
list of derivation outcomes the worker has fully processed, recorded to state
counting invariants; `pending` is the oracle of outcomes its future
derivation calls will produce.
* `atLoop`: at the top of the `for` loop, about to poll `stopChan`;
* `postDerive`: took the `default` branch and obtained outcome `out`,
  about to run the error check / suffix comparison;
* `postReport`: the suffix comparison succeeded and `printFoundWallet` has
  run; the worker is about to call `once.Do(func() { close(stopChan) })` and
  return;
* `exited`: returned (either after observing `stopChan` closed, or after
  reporting a found wallet and running the `once.Do`). -/
inductive WorkerState where
  | atLoop (done pending : List DeriveOutcome)
  | postDerive (done : List DeriveOutcome) (out : DeriveOutcome)
      (pending : List DeriveOutcome)
  | postReport (done : List DeriveOutcome)
  | exited (done : List DeriveOutcome)
deriving DecidableEq, Repr

/-- The ghost log of outcomes a worker has fully processed. -/
def WorkerState.doneOf : WorkerState → List DeriveOutcome
  | .atLoop d _ => d
  | .postDerive d _ _ => d
  | .postReport d => d
  | .exited d => d

/-- The shared mutable state of a run: the atomic processed counter, whether
`stopChan` has been closed, and the list of found-wallet reports printed so
far (in print order) — the coordinator observes a `MatchResult` exactly when
`printFoundWallet` runs. -/
structure Shared where
  counter : Nat
  stopped : Bool
  reports : List (List Char × List Char)
deriving DecidableEq, Repr

/-- Control state of the `logProgress` goroutine: its local `lastCount`
variable and the (ghost) list of deltas it has emitted. -/
inductive RepState where
  | waiting (lastCount : Nat) (deltas : List Nat)
  | repExited (lastCount : Nat) (deltas : List Nat)
deriving DecidableEq, Repr

/-- The reporter's `lastCount` local. -/
def RepState.lastCountOf : RepState → Nat
  | .waiting l _ => l
  | .repExited l _ => l

/-- The deltas the reporter has emitted so far. -/
def RepState.deltasOf : RepState → List Nat
  | .waiting _ ds => ds
  | .repExited _ ds => ds

/-- A whole-system configuration: shared memory, every worker's control
state, and the reporter's control state. -/
structure Sys where
  shared : Shared
  workers : List WorkerState
  reporter : RepState
deriving DecidableEq, Repr

/-- The state in which `main` starts the run: counter `0`, `stopChan` open,
nothing reported, every worker at the top of its loop with its derivation
oracle ahead of it, the reporter with `lastCount = 0`. -/
def initSys (oracles : List (List DeriveOutcome)) : Sys :=
  { shared := { counter := 0, stopped := false, reports := [] },
    workers := oracles.map (fun o => .atLoop [] o),
    reporter := .waiting 0 [] }

/-- One atomic step of the interleaved execution, for a fixed `Config`.

Worker steps (from `processWallets`):
* `pollStop`: the non-blocking `select` sees `stopChan` closed; the worker
  returns.
* `pollGo`: `stopChan` is open, so the `select` takes `default`; the worker
  generates a seed and calls the deriver, obtaining the next oracle outcome.
* `deriveFail`: `err != nil` — log the failure and `continue` the loop
  (no counter increment, no termination).
* `noMatch`: derivation succeeded but the suffix comparison fails —
  `atomic.AddUint64(counter, 1)` and loop.
* `found`: the suffix comparison succeeds — `printFoundWallet` runs (the
  report is appended) while `stopChan` is left exactly as it was; the close
  comes strictly later, as in the program text.
* `closeStop`: the reporting worker's `once.Do(func() { close(stopChan) })`
  and `return`: after it the signal is up, whether this worker's `once.Do`
  ran the close or a peer's already had (in both cases the channel is
  closed), and the worker has exited.

Reporter steps (from `logProgress`):
* `repStop`: the `select` takes the `<-stopChan` case; the reporter returns.
* `tick`: the one-second timer fires; the reporter loads the counter, emits
  `currentCount - lastCount`, and updates `lastCount`. -/
inductive Step (cfg : Config) : Sys → Sys → Prop where
  | pollStop (i : Nat) (s : Sys) (d p : List DeriveOutcome)
      (hw : s.workers[i]? = some (.atLoop d p))
      (hstop : s.shared.stopped = true) :
      Step cfg s { s with workers := s.workers.set i (.exited d) }
  | pollGo (i : Nat) (s : Sys) (d : List DeriveOutcome) (o : DeriveOutcome)
      (p : List DeriveOutcome)
      (hw : s.workers[i]? = some (.atLoop d (o :: p)))
      (hstop : s.shared.stopped = false) :
      Step cfg s { s with workers := s.workers.set i (.postDerive d o p) }
  | deriveFail (i : Nat) (s : Sys) (d p : List DeriveOutcome)
      (hw : s.workers[i]? = some (.postDerive d .fail p)) :
      Step cfg s { s with workers := s.workers.set i (.atLoop (d ++ [.fail]) p) }
  | noMatch (i : Nat) (s : Sys) (d : List DeriveOutcome) (seed addr : List Char)
      (p : List DeriveOutcome)
      (hw : s.workers[i]? = some (.postDerive d (.ok seed addr) p))
      (hm : addrMatches cfg addr = false) :
      Step cfg s { s with
        workers := s.workers.set i (.atLoop (d ++ [.ok seed addr]) p),
        shared := ⟨s.shared.counter + 1, s.shared.stopped, s.shared.reports⟩ }
  | found (i : Nat) (s : Sys) (d : List DeriveOutcome) (seed addr : List Char)
      (p : List DeriveOutcome)
      (hw : s.workers[i]? = some (.postDerive d (.ok seed addr) p))
      (hm : addrMatches cfg addr = true) :
      Step cfg s { s with
        workers := s.workers.set i (.postReport (d ++ [.ok seed addr])),
        shared := ⟨s.shared.counter, s.shared.stopped,
                   s.shared.reports ++ [(seed, addr)]⟩ }
  | closeStop (i : Nat) (s : Sys) (d : List DeriveOutcome)
      (hw : s.workers[i]? = some (.postReport d)) :
      Step cfg s { s with
        workers := s.workers.set i (.exited d),
        shared := ⟨s.shared.counter, true, s.shared.reports⟩ }
  | repStop (s : Sys) (l : Nat) (ds : List Nat)
      (hr : s.reporter = .waiting l ds)
      (hstop : s.shared.stopped = true) :
      Step cfg s { s with reporter := .repExited l ds }
  | tick (s : Sys) (l : Nat) (ds : List Nat)
      (hr : s.reporter = .waiting l ds) :
      Step cfg s { s with
        reporter := .waiting s.shared.counter (ds ++ [s.shared.counter - l]) }

/-- Zero or more interleaved steps. -/
abbrev Reaches (cfg : Config) : Sys → Sys → Prop :=
  Relation.ReflTransGen (Step cfg)

/-- A worker that has returned. -/
def WorkerState.isExited : WorkerState → Bool
  | .exited _ => true
  | _ => false

/-- The run is complete (`wg.Wait()` in `main` has returned): every worker
goroutine has exited.  `main` does not wait for the reporter. -/
def allExited (s : Sys) : Bool := s.workers.all WorkerState.isExited

/-- An outcome that `processWallets` counts: derivation succeeded and the
address did not match the suffix (only then does the loop body reach
`atomic.AddUint64(counter, 1)`). -/
def countedOutcome (cfg : Config) : DeriveOutcome → Bool
  | .fail => false
  | .ok _ addr => !(addrMatches cfg addr)

/-- How many counted iterations all workers together have completed. -/
def countedTotal (cfg : Config) (s : Sys) : Nat :=
  (s.workers.map (fun w => (w.doneOf.filter (countedOutcome cfg)).length)).sum

/-! ## Concrete runs used as witnesses and counterexamples -/

/-- A configuration searching case-sensitively for the suffix `"ab"`. -/
def cfg1 : Config :=
  { version := 5, suffix := ['a', 'b'], caseSensitive := true, bounce := false,
    threads := 1, testnet := false }

/-- A seed phrase (as a character list) for the concrete runs. -/
def seedA : List Char := ['s', '1']

/-- A derived address that does not end in `"ab"`. -/
def addrN : List Char := ['x', 'y']

/-- A second seed phrase. -/
def seedB : List Char := ['s', '2']

/-- A derived address ending in `"ab"`. -/
def addrM : List Char := ['x', 'a', 'b']

/-- A third seed phrase. -/
def seedC : List Char := ['s', '3']

/-- Another derived address ending in `"ab"`. -/
def addrM2 : List Char := ['z', 'a', 'b']

/-- A single-worker oracle: one failed derivation, one non-matching address,
then a matching address. -/
def or1 : List (List DeriveOutcome) :=
  [[.fail, .ok seedA addrN, .ok seedB addrM]]

/-- The state in which the single-worker run on `or1` completes: one counted
iteration, the signal raised, one report, the reporter never having ticked. -/
def e1 : Sys :=
  { shared := ⟨1, true, [(seedB, addrM)]⟩,
    workers := [.exited [.fail, .ok seedA addrN, .ok seedB addrM]],
    reporter := .waiting 0 [] }

/-- A two-worker oracle: each worker's first derivation already matches. -/
def or2 : List (List DeriveOutcome) :=
  [[.ok seedB addrM], [.ok seedC addrM2]]

/-- The state reached when both workers of `or2` pass their loop-head poll
before either closes `stopChan` and then both report: two reports observed. -/
def e2 : Sys :=
  { shared := ⟨0, true, [(seedB, addrM), (seedC, addrM2)]⟩,
    workers := [.exited [.ok seedB addrM], .exited [.ok seedC addrM2]],
    reporter := .waiting 0 [] }

/-- `e2` after one reporter tick (a tick may still race with the close). -/
def t2 : Sys := { e2 with reporter := .waiting 0 [0] }

/-- The race of `or2` caught between the prints and the closes: both workers
have run `printFoundWallet` — two reports observed — while neither has yet
reached its `once.Do(close(stopChan))`, so the signal is still down. -/
def e2pre : Sys :=
  { shared := ⟨0, false, [(seedB, addrM), (seedC, addrM2)]⟩,
    workers := [.postReport [.ok seedB addrM], .postReport [.ok seedC addrM2]],
    reporter := .waiting 0 [] }

/-- A run of `or2` in which worker 0 finds its match, reports it and closes
`stopChan` before worker 1 ever polls: worker 1 is still at its loop head
with the signal up. -/
def m2 : Sys :=
  { shared := ⟨0, true, [(seedB, addrM)]⟩,
    workers := [.exited [.ok seedB addrM], .atLoop [] [.ok seedC addrM2]],
    reporter := .waiting 0 [] }

/-- `m2` after worker 1 observes the signal at its loop head and exits
silently. -/
def m3 : Sys :=
  { shared := ⟨0, true, [(seedB, addrM)]⟩,
    workers := [.exited [.ok seedB addrM], .exited []],
    reporter := .waiting 0 [] }

/-- The single-worker run of `or1` just after its first derivation failed. -/
def w1 : Sys :=
  { shared := ⟨0, false, []⟩,
    workers := [.postDerive [] .fail [.ok seedA addrN, .ok seedB addrM]],
    reporter := .waiting 0 [] }

/-- `w1` after the worker logs the failure and continues its loop. -/
def w2 : Sys :=
  { shared := ⟨0, false, []⟩,
    workers := [.atLoop [.fail] [.ok seedA addrN, .ok seedB addrM]],
    reporter := .waiting 0 [] }

/-! ## Helper lemmas about the transition system -/

/-- Replacing the element at `i` changes a mapped sum by the difference of
the images (stated additively to stay in `Nat`). -/
theorem sum_map_set {α : Type} (f : α → Nat) (l : List α) (i : Nat) (x y : α)
    (h : l[i]? = some x) :
    ((l.set i y).map f).sum + f x = (l.map f).sum + f y := by
  induction l generalizing i with
  | nil => simp at h
  | cons a t ih =>
    cases i with
    | zero =>
      simp only [List.getElem?_cons_zero, Option.some.injEq] at h
      subst h
      simp only [List.set_cons_zero, List.map_cons, List.sum_cons]
      omega
    | succ n =>
      simp only [List.getElem?_cons_succ] at h
      have ih' := ih n h
      simp only [List.set_cons_succ, List.map_cons, List.sum_cons]
      omega

/-- Every step leaves the counter equal or one higher and never resets the
termination signal. -/
theorem step_mono {cfg : Config} {s s' : Sys} (h : Step cfg s s') :
    s.shared.counter ≤ s'.shared.counter ∧
    (s.shared.stopped = true → s'.shared.stopped = true) := by
  cases h <;> refine ⟨?_, ?_⟩ <;> simp

/-- Counter monotonicity and stop-signal stability along any execution. -/
theorem reaches_mono {cfg : Config} {s s' : Sys} (h : Reaches cfg s s') :
    s.shared.counter ≤ s'.shared.counter ∧
    (s.shared.stopped = true → s'.shared.stopped = true) := by
  induction h with
  | refl => exact ⟨le_refl _, fun h => h⟩
  | tail hab hbc ih =>
    have hm := step_mono hbc
    exact ⟨le_trans ih.1 hm.1, fun h => hm.2 (ih.2 h)⟩

/-- Every step preserves the balance between the shared counter and the
number of counted (derivation-succeeded, suffix-missed) iterations recorded
in the workers' ghost logs. -/
theorem step_counted {cfg : Config} {s s' : Sys} (h : Step cfg s s') :
    s'.shared.counter + countedTotal cfg s = s.shared.counter + countedTotal cfg s' := by
  cases h with
  | pollStop i s d p hw hstop =>
    have hs := sum_map_set (fun w => (w.doneOf.filter (countedOutcome cfg)).length)
      s.workers i (.atLoop d p) (.exited d) hw
    simp only [countedTotal, WorkerState.doneOf] at hs ⊢
    omega
  | pollGo i s d o p hw hstop =>
    have hs := sum_map_set (fun w => (w.doneOf.filter (countedOutcome cfg)).length)
      s.workers i (.atLoop d (o :: p)) (.postDerive d o p) hw
    simp only [countedTotal, WorkerState.doneOf] at hs ⊢
    omega
  | deriveFail i s d p hw =>
    have hs := sum_map_set (fun w => (w.doneOf.filter (countedOutcome cfg)).length)
      s.workers i (.postDerive d .fail p) (.atLoop (d ++ [.fail]) p) hw
    have hf : ((d ++ [DeriveOutcome.fail]).filter (countedOutcome cfg)).length
        = (d.filter (countedOutcome cfg)).length := by
      simp [List.filter_append, countedOutcome]
    simp only [countedTotal, WorkerState.doneOf] at hs ⊢
    rw [hf] at hs
    omega
  | noMatch i s d seed addr p hw hm =>
    have hs := sum_map_set (fun w => (w.doneOf.filter (countedOutcome cfg)).length)
      s.workers i (.postDerive d (.ok seed addr) p) (.atLoop (d ++ [.ok seed addr]) p) hw
    have hf : ((d ++ [DeriveOutcome.ok seed addr]).filter (countedOutcome cfg)).length
        = (d.filter (countedOutcome cfg)).length + 1 := by
      simp [List.filter_append, countedOutcome, hm]
    simp only [countedTotal, WorkerState.doneOf] at hs ⊢
    rw [hf] at hs
    omega
  | found i s d seed addr p hw hm =>
    have hs := sum_map_set (fun w => (w.doneOf.filter (countedOutcome cfg)).length)
      s.workers i (.postDerive d (.ok seed addr) p) (.postReport (d ++ [.ok seed addr])) hw
    have hf : ((d ++ [DeriveOutcome.ok seed addr]).filter (countedOutcome cfg)).length
        = (d.filter (countedOutcome cfg)).length := by
      simp [List.filter_append, countedOutcome, hm]
    simp only [countedTotal, WorkerState.doneOf] at hs ⊢
    rw [hf] at hs
    omega
  | closeStop i s d hw =>
    have hs := sum_map_set (fun w => (w.doneOf.filter (countedOutcome cfg)).length)
      s.workers i (.postReport d) (.exited d) hw
    simp only [countedTotal, WorkerState.doneOf] at hs ⊢
    omega
  | repStop s l ds hr hstop => simp [countedTotal]
  | tick s l ds hr => simp [countedTotal]

/-- From the initial state onwards, the shared counter always equals the
number of counted iterations performed so far. -/
theorem reaches_counter_counted {cfg : Config} {oracles : List (List DeriveOutcome)}
    {s : Sys} (h : Reaches cfg (initSys oracles) s) :
    s.shared.counter = countedTotal cfg s := by
  induction h with
  | refl =>
    simp only [initSys, countedTotal]
    rw [List.sum_eq_zero]
    intro x hx
    simp only [List.map_map, List.mem_map] at hx
    obtain ⟨o, _, ho⟩ := hx
    simpa [WorkerState.doneOf] using ho.symm
  | tail hab hbc ih =>
    have := step_counted hbc
    omega

/-- Every step preserves the reporter's invariant: its last sample never
exceeds the counter, and its emitted deltas sum to the last sample. -/
theorem step_reporter_inv {cfg : Config} {s s' : Sys} (h : Step cfg s s')
    (hle : s.reporter.lastCountOf ≤ s.shared.counter)
    (hsum : s.reporter.deltasOf.sum = s.reporter.lastCountOf) :
    s'.reporter.lastCountOf ≤ s'.shared.counter ∧
    s'.reporter.deltasOf.sum = s'.reporter.lastCountOf := by
  cases h <;> simp_all [RepState.lastCountOf, RepState.deltasOf]
  all_goals omega

/-- The reporter invariant holds in every reachable state. -/
theorem reaches_reporter_inv {cfg : Config} {oracles : List (List DeriveOutcome)}
    {s : Sys} (h : Reaches cfg (initSys oracles) s) :
    s.reporter.lastCountOf ≤ s.shared.counter ∧
    s.reporter.deltasOf.sum = s.reporter.lastCountOf := by
  induction h with
  | refl => simp [initSys, RepState.lastCountOf, RepState.deltasOf]
  | tail hab hbc ih => exact step_reporter_inv hbc ih.1 ih.2

/-- Every step preserves: reports only hold genuinely matching addresses
(each report is appended by a `found` transition, whose guard is the suffix
comparison succeeding). -/
theorem step_reports_inv {cfg : Config} {s s' : Sys} (h : Step cfg s s')
    (hg : ∀ pr ∈ s.shared.reports, addrMatches cfg pr.2 = true) :
    ∀ pr ∈ s'.shared.reports, addrMatches cfg pr.2 = true := by
  cases h with
  | found i s d seed addr p hw hm =>
    intro pr hpr
    simp only [List.mem_append, List.mem_singleton] at hpr
    rcases hpr with hpr | hpr
    · exact hg pr hpr
    · subst hpr; exact hm
  | pollStop i s d p hw hstop => exact hg
  | pollGo i s d o p hw hstop => exact hg
  | deriveFail i s d p hw => exact hg
  | noMatch i s d seed addr p hw hm => exact hg
  | closeStop i s d hw => exact hg
  | repStop s l ds hr hstop => exact hg
  | tick s l ds hr => exact hg

/-- Once a worker has returned its control state is frozen, and likewise for
the reporter: no step of any goroutine moves them again. -/
theorem step_exited_frozen {cfg : Config} {s s' : Sys} (h : Step cfg s s') :
    (∀ (i : Nat) (d : List DeriveOutcome),
      s.workers[i]? = some (.exited d) → s'.workers[i]? = some (.exited d)) ∧
    (∀ (l : Nat) (ds : List Nat),
      s.reporter = .repExited l ds → s'.reporter = .repExited l ds) := by
  cases h with
  | pollStop j s dj pj hwj hstop =>
    refine ⟨fun i d hi => ?_, fun l ds hr => hr⟩
    by_cases hij : j = i
    · subst hij; rw [hwj] at hi; simp at hi
    · simpa [List.getElem?_set_ne hij] using hi
  | pollGo j s dj o pj hwj hstop =>
    refine ⟨fun i d hi => ?_, fun l ds hr => hr⟩
    by_cases hij : j = i
    · subst hij; rw [hwj] at hi; simp at hi
    · simpa [List.getElem?_set_ne hij] using hi
  | deriveFail j s dj pj hwj =>
    refine ⟨fun i d hi => ?_, fun l ds hr => hr⟩
    by_cases hij : j = i
    · subst hij; rw [hwj] at hi; simp at hi
    · simpa [List.getElem?_set_ne hij] using hi
  | noMatch j s dj seed addr pj hwj hm =>
    refine ⟨fun i d hi => ?_, fun l ds hr => hr⟩
    by_cases hij : j = i
    · subst hij; rw [hwj] at hi; simp at hi
    · simpa [List.getElem?_set_ne hij] using hi
  | found j s dj seed addr pj hwj hm =>
    refine ⟨fun i d hi => ?_, fun l ds hr => hr⟩
    by_cases hij : j = i
    · subst hij; rw [hwj] at hi; simp at hi
    · simpa [List.getElem?_set_ne hij] using hi
  | closeStop j s dj hwj =>
    refine ⟨fun i d hi => ?_, fun l ds hr => hr⟩
    by_cases hij : j = i
    · subst hij; rw [hwj] at hi; simp at hi
    · simpa [List.getElem?_set_ne hij] using hi
  | repStop s l ds hr hstop =>
    refine ⟨fun i d hi => hi, fun l' ds' hr' => ?_⟩
    rw [hr] at hr'; simp at hr'
  | tick s l ds hr =>
    refine ⟨fun i d hi => hi, fun l' ds' hr' => ?_⟩
    rw [hr] at hr'; simp at hr'

/-- A step that takes a worker from the top of its loop straight to `exited`
(with its ghost log unchanged) can only be that worker's `pollStop`: the stop
signal was already up and the step adds no report.  This is the silent exit
of a worker that observes the termination signal. -/
theorem step_loop_to_exit {cfg : Config} {s s' : Sys} (h : Step cfg s s')
    (i : Nat) (d p : List DeriveOutcome)
    (hw : s.workers[i]? = some (.atLoop d p))
    (hw' : s'.workers[i]? = some (.exited d)) :
    s'.shared.reports = s.shared.reports ∧ s.shared.stopped = true := by
  cases h with
  | pollStop j s dj pj hwj hstop => exact ⟨rfl, hstop⟩
  | pollGo j s dj o pj hwj hstop =>
    by_cases hij : j = i
    · subst hij
      have hlt := (List.getElem?_eq_some.mp hwj).1
      rw [List.getElem?_set_eq_of_lt _ hlt] at hw'
      simp at hw'
    · rw [List.getElem?_set_ne hij, hw] at hw'; simp at hw'
  | deriveFail j s dj pj hwj =>
    by_cases hij : j = i
    · subst hij; rw [hwj] at hw; simp at hw
    · rw [List.getElem?_set_ne hij, hw] at hw'; simp at hw'
  | noMatch j s dj seed addr pj hwj hm =>
    by_cases hij : j = i
    · subst hij; rw [hwj] at hw; simp at hw
    · rw [List.getElem?_set_ne hij, hw] at hw'; simp at hw'
  | found j s dj seed addr pj hwj hm =>
    by_cases hij : j = i
    · subst hij; rw [hwj] at hw; simp at hw
    · rw [List.getElem?_set_ne hij, hw] at hw'; simp at hw'
  | closeStop j s dj hwj =>
    by_cases hij : j = i
    · subst hij; rw [hwj] at hw; simp at hw
    · rw [List.getElem?_set_ne hij, hw] at hw'; simp at hw'
  | repStop s l ds hr hstop => exact ⟨rfl, hstop⟩
  | tick s l ds hr =>
    rw [hw] at hw'
    simp at hw'

/-! ## Claims about the pure components -/

/-- **C2.** For every address `a` and configured suffix, the case-sensitive
comparison of `processWallets` succeeds iff `a` ends with the suffix
character-for-character, the case-insensitive comparison succeeds iff the
case-folded whole of `a` ends with the case-folded whole of the suffix, and
in both modes an empty suffix matches every address. -/
theorem C2_suffix_match (cfg : Config) (a : List Char) :
    (cfg.caseSensitive = true → (addrMatches cfg a = true ↔ cfg.suffix <:+ a)) ∧
    (cfg.caseSensitive = false →
      (addrMatches cfg a = true ↔ toLowerStr cfg.suffix <:+ toLowerStr a)) ∧
    (cfg.suffix = [] → addrMatches cfg a = true) := by
  refine ⟨fun h => ?_, fun h => ?_, fun h => ?_⟩
  · simp [addrMatches, h, hasSuffix, List.isSuffixOf_iff_suffix]
  · simp [addrMatches, h, hasSuffix, List.isSuffixOf_iff_suffix]
  · unfold addrMatches hasSuffix
    split <;> simp [h, toLowerStr, List.isSuffixOf_iff_suffix]

/-- Witness for C2 on the specification's own scenarios: with suffix `"ab"`
(case-sensitive) the address `"xab"` matches and `"xy"` does not, and the
empty suffix matches `"xy"`. -/
theorem C2_suffix_match_witness :
    addrMatches cfg1 addrM = true ∧
    addrMatches cfg1 addrN = false ∧
    addrMatches { cfg1 with suffix := [] } addrN = true := by
  refine ⟨?_, ?_, ?_⟩
  · exact ((C2_suffix_match cfg1 addrM).1 rfl).mpr ⟨['x'], rfl⟩
  · have h := (C2_suffix_match cfg1 addrN).1 rfl
    by_contra hc
    rcases h.mp (by revert hc; decide) with ⟨t, ht⟩
    have : t.length + 2 = 2 := by
      simpa [cfg1, addrN] using congrArg List.length ht
    have ht2 : t = [] := by
      cases t with
      | nil => rfl
      | cons x xs => simp at this
    subst ht2
    simp [cfg1, addrN] at ht
  · exact (C2_suffix_match { cfg1 with suffix := [] } addrN).2.2 rfl

/-- **C5 (amended).** Provided the configured thread count is non-negative
and the machine reports at least one CPU: a configured `0` resolves to the
CPU count (8 on a machine reporting 8), the resolved count is at least `1`,
and the `for` loop then starts exactly that many workers.  (A negative
configured count — counterexample `C5_counterexample` — is passed through
unresolved and zero workers start.) -/
theorem C5_worker_count (threads numCPU : Int) (h0 : 0 ≤ threads) (h1 : 1 ≤ numCPU) :
    resolveThreads 0 numCPU = numCPU ∧
    1 ≤ resolveThreads threads numCPU ∧
    (workersStarted (resolveThreads threads numCPU) : Int) =
      resolveThreads threads numCPU := by
  unfold resolveThreads workersStarted
  refine ⟨by simp, ?_, ?_⟩ <;> split <;> omega

/-- Witness for C5: on a machine reporting 8 execution units a configured
count of 0 resolves to 8, is at least 1, and 8 workers start. -/
theorem C5_worker_count_witness :
    resolveThreads 0 8 = 8 ∧ 1 ≤ resolveThreads 0 8 ∧
    (workersStarted (resolveThreads 0 8) : Int) = resolveThreads 0 8 :=
  C5_worker_count 0 8 (by decide) (by decide)

/-- Counterexample to C5 as stated: the configured value `-1` is never
resolved or floored, the "resolved" worker count is not at least 1, and the
start loop `for i := 0; i < threads; i++` starts zero workers. -/
theorem C5_counterexample :
    resolveThreads (-1) 8 = -1 ∧ ¬(1 ≤ resolveThreads (-1) 8) ∧
    workersStarted (resolveThreads (-1) 8) = 0 := by decide

/-- **C8.** `parseFlags` exits through `os.Exit(1)` (non-zero status, after
printing the flag defaults) exactly when the suffix is empty or the version
is neither 4 nor 5; otherwise it returns the parsed configuration and `main`
proceeds to start the search. -/
theorem C8_parse_flags (version : Int) (suffix : List Char) (cs b : Bool)
    (threads : Int) (tn : Bool) :
    (parseFlags version suffix cs b threads tn = .usageExit 1 ↔
      suffix = [] ∨ (version ≠ 4 ∧ version ≠ 5)) ∧
    (1 ≠ 0) ∧
    (¬(suffix = [] ∨ (version ≠ 4 ∧ version ≠ 5)) →
      parseFlags version suffix cs b threads tn =
        .ok ⟨version, suffix, cs, b, threads, tn⟩) := by
  unfold parseFlags
  split <;> simp_all

/-- Witness for C8: version 7 exits with status 1, an empty suffix exits with
status 1, and version 5 with suffix `"ab"` parses successfully. -/
theorem C8_parse_flags_witness :
    parseFlags 7 ['a', 'b'] false false 0 false = .usageExit 1 ∧
    parseFlags 5 [] false false 0 false = .usageExit 1 ∧
    parseFlags 5 ['a', 'b'] false false 0 false =
      .ok ⟨5, ['a', 'b'], false, false, 0, false⟩ := by
  refine ⟨?_, ?_, ?_⟩
  · exact (C8_parse_flags 7 ['a', 'b'] false false 0 false).1.mpr (by decide)
  · exact (C8_parse_flags 5 [] false false 0 false).1.mpr (Or.inl rfl)
  · exact (C8_parse_flags 5 ['a', 'b'] false false 0 false).2.2 (by decide)

/-- **C9.** When an output path is configured, `printFoundWallet` attempts to
append (with create-if-absent `O_APPEND|O_CREATE` flags) exactly the record
`"=== FOUND <timestamp> ===\nSeed: <phrase>\nAddress: <address>\n\n"`, and if
the write fails it logs a warning while the found wallet has already been
printed to the console unchanged — persistence failure never invalidates the
displayed result. -/
theorem C9_persistence (phrase address output timestamp : String) (writeOk : Bool)
    (h : output ≠ "") :
    (printFoundWallet phrase address output timestamp writeOk).write =
      some ⟨output,
        "=== FOUND " ++ timestamp ++ " ===\nSeed: " ++ phrase ++
          "\nAddress: " ++ address ++ "\n\n", true, true⟩ ∧
    (printFoundWallet phrase address output timestamp writeOk).console.take 3 =
      displayLines phrase address ∧
    (writeOk = false →
      (printFoundWallet phrase address output timestamp writeOk).warning =
        some "Failed to write to file" ∧
      (printFoundWallet phrase address output timestamp writeOk).console =
        displayLines phrase address) := by
  unfold printFoundWallet foundRecord
  cases writeOk <;> simp [h, displayLines]

/-! ## Concrete executions -/

/-- The single worker of `or1` runs to completion: one failed derivation, one
counted non-matching address, then the match that raises the signal. -/
theorem reaches_e1 : Reaches cfg1 (initSys or1) e1 :=
  Relation.ReflTransGen.head
    (Step.pollGo 0 _ [] .fail [.ok seedA addrN, .ok seedB addrM] rfl rfl)
    (Relation.ReflTransGen.head
      (Step.deriveFail 0 _ [] [.ok seedA addrN, .ok seedB addrM] rfl)
      (Relation.ReflTransGen.head
        (Step.pollGo 0 _ [.fail] (.ok seedA addrN) [.ok seedB addrM] rfl rfl)
        (Relation.ReflTransGen.head
          (Step.noMatch 0 _ [.fail] seedA addrN [.ok seedB addrM] rfl rfl)
          (Relation.ReflTransGen.head
            (Step.pollGo 0 _ [.fail, .ok seedA addrN] (.ok seedB addrM) [] rfl rfl)
            (Relation.ReflTransGen.head
              (Step.found 0 _ [.fail, .ok seedA addrN] seedB addrM [] rfl rfl)
              (Relation.ReflTransGen.head
                (Step.closeStop 0 _ [.fail, .ok seedA addrN, .ok seedB addrM] rfl)
                Relation.ReflTransGen.refl))))))

/-- The race of `or2` up to the two prints: both workers pass their loop-head
poll while the signal is down, then both find a match and both run
`printFoundWallet` — before either `once.Do(close(stopChan))`. -/
theorem reaches_e2pre : Reaches cfg1 (initSys or2) e2pre :=
  Relation.ReflTransGen.head
    (Step.pollGo 0 _ [] (.ok seedB addrM) [] rfl rfl)
    (Relation.ReflTransGen.head
      (Step.pollGo 1 _ [] (.ok seedC addrM2) [] rfl rfl)
      (Relation.ReflTransGen.head
        (Step.found 0 _ [] seedB addrM [] rfl rfl)
        (Relation.ReflTransGen.head
          (Step.found 1 _ [] seedC addrM2 [] rfl rfl)
          Relation.ReflTransGen.refl)))

/-- Both racing workers then run their `once.Do` and return: worker 0's
closes `stopChan`, worker 1's is a no-op. -/
theorem e2pre_to_e2 : Reaches cfg1 e2pre e2 :=
  Relation.ReflTransGen.head
    (Step.closeStop 0 _ [.ok seedB addrM] rfl)
    (Relation.ReflTransGen.head
      (Step.closeStop 1 _ [.ok seedC addrM2] rfl)
      Relation.ReflTransGen.refl)

/-- The completed race of `or2`. -/
theorem reaches_e2 : Reaches cfg1 (initSys or2) e2 :=
  Relation.ReflTransGen.trans reaches_e2pre e2pre_to_e2

/-- The race of `or2` followed by a reporter tick. -/
theorem reaches_t2 : Reaches cfg1 (initSys or2) t2 :=
  Relation.ReflTransGen.tail reaches_e2 (Step.tick e2 0 [] rfl)

/-- Worker 0 of `or2` finds its match, reports it and closes `stopChan`
before worker 1 ever polls. -/
theorem reaches_m2 : Reaches cfg1 (initSys or2) m2 :=
  Relation.ReflTransGen.head
    (Step.pollGo 0 _ [] (.ok seedB addrM) [] rfl rfl)
    (Relation.ReflTransGen.head
      (Step.found 0 _ [] seedB addrM [] rfl rfl)
      (Relation.ReflTransGen.head
        (Step.closeStop 0 _ [.ok seedB addrM] rfl)
        Relation.ReflTransGen.refl))

/-- The reports invariant holds in every reachable state: only genuinely
matching candidates are ever reported. -/
theorem reaches_reports_inv {cfg : Config} {oracles : List (List DeriveOutcome)}
    {s : Sys} (h : Reaches cfg (initSys oracles) s) :
    ∀ pr ∈ s.shared.reports, addrMatches cfg pr.2 = true := by
  induction h with
  | refl => simp [initSys]
  | tail hab hbc ih => exact step_reports_inv hbc ih

/-! ## Claims about the concurrent engine -/

/-- **C1 (amended).** The termination signal, once raised, is never reset by
any step — so it transitions from running to stopped at most once; every
`MatchResult` the coordinator observes comes from a worker whose derived
address genuinely matches the suffix; and a worker that goes from its loop
head to exited in one step has observed the signal as already raised and
exits silently, adding no report (that transition is its `pollStop`).
However — counterexample `C1_counterexample` — `printFoundWallet` runs
before `once.Do(close(stopChan))`: when several workers find qualifying
matches concurrently, each of them reports (before the signal is even
raised), so more than one `MatchResult` can be observed by the coordinator. -/
theorem C1_single_winner_race (cfg : Config) (oracles : List (List DeriveOutcome))
    (s s' : Sys) (h : Reaches cfg (initSys oracles) s) (hstep : Step cfg s s') :
    (∀ pr ∈ s.shared.reports, addrMatches cfg pr.2 = true) ∧
    (s.shared.stopped = true → s'.shared.stopped = true) ∧
    (∀ (i : Nat) (d p : List DeriveOutcome),
      s.workers[i]? = some (.atLoop d p) → s'.workers[i]? = some (.exited d) →
      s'.shared.reports = s.shared.reports ∧ s.shared.stopped = true) :=
  ⟨reaches_reports_inv h, (step_mono hstep).2,
   fun i d p hw hw' => step_loop_to_exit hstep i d p hw hw'⟩

/-- Witness for C1 (amended): worker 0 has reported a genuine match and
closed the channel; worker 1 then observes the signal at its loop head and
exits without adding a report. -/
theorem C1_single_winner_race_witness :
    addrMatches cfg1 addrM = true ∧ m3.shared.stopped = true ∧
    m3.shared.reports = m2.shared.reports := by
  have h := C1_single_winner_race cfg1 or2 m2 m3 reaches_m2
    (Step.pollStop 1 m2 [] [.ok seedC addrM2] rfl rfl)
  exact ⟨h.1 (seedB, addrM) (by decide), h.2.1 rfl,
    (h.2.2 1 [] [.ok seedC addrM2] rfl rfl).1⟩

/-- Counterexample to C1 as stated: an execution in which two workers race,
both find qualifying matches, and the coordinator observes **two**
`MatchResult`s — both observed while the termination signal is still down,
because `printFoundWallet` runs strictly before `once.Do(close(stopChan))`;
the run then completes with both reports standing. -/
theorem C1_counterexample :
    Reaches cfg1 (initSys or2) e2pre ∧ e2pre.shared.reports.length = 2 ∧
    e2pre.shared.stopped = false ∧ Reaches cfg1 e2pre e2 ∧
    allExited e2 = true ∧ e2.shared.reports.length = 2 :=
  ⟨reaches_e2pre, rfl, rfl, e2pre_to_e2, rfl, rfl⟩

/-- **C3.** When a worker's derivation has failed, any step of the system
either leaves that worker untouched, or is exactly the worker's
log-and-continue transition: it returns to the top of its loop (it does not
exit), the shared state is completely unchanged — no counter increment, no
termination signal, no report — and the failure is recorded as a skipped
iteration.  No other transition is available to that worker, so the failure
is never escalated. -/
theorem C3_derive_failure (cfg : Config) (s s' : Sys) (i : Nat)
    (d p : List DeriveOutcome)
    (hw : s.workers[i]? = some (.postDerive d .fail p))
    (h : Step cfg s s') :
    s'.workers[i]? = some (.postDerive d .fail p) ∨
    (s'.workers[i]? = some (.atLoop (d ++ [.fail]) p) ∧ s'.shared = s.shared) := by
  cases h with
  | pollStop j s dj pj hwj hstop =>
    by_cases hij : j = i
    · subst hij; rw [hwj] at hw; simp at hw
    · exact Or.inl (by simpa [List.getElem?_set_ne hij] using hw)
  | pollGo j s dj o pj hwj hstop =>
    by_cases hij : j = i
    · subst hij; rw [hwj] at hw; simp at hw
    · exact Or.inl (by simpa [List.getElem?_set_ne hij] using hw)
  | deriveFail j s dj pj hwj =>
    by_cases hij : j = i
    · subst hij
      have hlt := (List.getElem?_eq_some.mp hwj).1
      rw [hwj] at hw
      simp only [Option.some.injEq, WorkerState.postDerive.injEq] at hw
      obtain ⟨hd, -, hp⟩ := hw
      subst hd
      subst hp
      refine Or.inr ⟨?_, rfl⟩
      simpa using List.getElem?_set_eq_of_lt (WorkerState.atLoop (dj ++ [.fail]) pj) hlt
    · exact Or.inl (by simpa [List.getElem?_set_ne hij] using hw)
  | noMatch j s dj seed addr pj hwj hm =>
    by_cases hij : j = i
    · subst hij; rw [hwj] at hw; simp at hw
    · exact Or.inl (by simpa [List.getElem?_set_ne hij] using hw)
  | found j s dj seed addr pj hwj hm =>
    by_cases hij : j = i
    · subst hij; rw [hwj] at hw; simp at hw
    · exact Or.inl (by simpa [List.getElem?_set_ne hij] using hw)
  | closeStop j s dj hwj =>
    by_cases hij : j = i
    · subst hij; rw [hwj] at hw; simp at hw
    · exact Or.inl (by simpa [List.getElem?_set_ne hij] using hw)
  | repStop s l ds hr hstop => exact Or.inl hw
  | tick s l ds hr => exact Or.inl hw

/-- Witness for C3: the concrete failed-derivation state `w1` steps to `w2`,
where the worker is back at its loop head and the shared state is unchanged. -/
theorem C3_derive_failure_witness :
    w2.workers[0]? = some (.postDerive [] .fail [.ok seedA addrN, .ok seedB addrM]) ∨
    (w2.workers[0]? = some (.atLoop [.fail] [.ok seedA addrN, .ok seedB addrM]) ∧
      w2.shared = w1.shared) :=
  C3_derive_failure cfg1 w1 w2 0 [] [.ok seedA addrN, .ok seedB addrM] rfl
    (Step.deriveFail 0 w1 [] [.ok seedA addrN, .ok seedB addrM] rfl)

/-- **C4 (amended).** In every reachable state the deltas the reporter has
emitted sum to its last sample of the counter (each tick emits exactly the
counter's increase since the previous sample, which is non-negative because
the counter never decreases), and that last sample is at most — possibly
strictly less than, see `C4_counterexample` — the current counter value. -/
theorem C4_progress_deltas (cfg : Config) (oracles : List (List DeriveOutcome))
    (s : Sys) (h : Reaches cfg (initSys oracles) s) :
    s.reporter.deltasOf.sum = s.reporter.lastCountOf ∧
    s.reporter.lastCountOf ≤ s.shared.counter :=
  ⟨(reaches_reporter_inv h).2, (reaches_reporter_inv h).1⟩

/-- Witness for C4 (amended) after the two-worker race and one tick. -/
theorem C4_progress_deltas_witness :
    t2.reporter.deltasOf.sum = t2.reporter.lastCountOf ∧
    t2.reporter.lastCountOf ≤ t2.shared.counter :=
  C4_progress_deltas cfg1 or2 t2 reaches_t2

/-- Counterexample to C4 as stated: a completed run (all workers exited)
whose counter is 1 while the reporter — which never reached a tick before the
match stopped the run — emitted deltas summing to 0, not to the final counter
value. -/
theorem C4_counterexample :
    Reaches cfg1 (initSys or1) e1 ∧ allExited e1 = true ∧
    e1.reporter.deltasOf.sum = 0 ∧ e1.shared.counter = 1 :=
  ⟨reaches_e1, rfl, rfl, rfl⟩

/-- **C6.** Along any execution the shared counter is monotonically
non-decreasing and the termination signal, once raised, is never reset
(hence it transitions from running to stopped at most once); moreover in any
reachable state the counter equals the exact number of counted iterations all
workers have performed — no increment is ever lost under interleaving. -/
theorem C6_shared_invariants (cfg : Config) (oracles : List (List DeriveOutcome))
    (s s' : Sys) (h : Reaches cfg (initSys oracles) s) (h' : Reaches cfg s s') :
    s.shared.counter ≤ s'.shared.counter ∧
    (s.shared.stopped = true → s'.shared.stopped = true) ∧
    s.shared.counter = countedTotal cfg s :=
  ⟨(reaches_mono h').1, (reaches_mono h').2, reaches_counter_counted h⟩

/-- Witness for C6 on the race run followed by a tick. -/
theorem C6_shared_invariants_witness :
    e2.shared.counter ≤ t2.shared.counter ∧ t2.shared.stopped = true ∧
    e2.shared.counter = countedTotal cfg1 e2 := by
  have h := C6_shared_invariants cfg1 or2 e2 t2 reaches_e2
    (Relation.ReflTransGen.single (Step.tick e2 0 [] rfl))
  exact ⟨h.1, h.2.1 rfl, h.2.2⟩

/-- **C7.** A worker that has observed the termination signal at its loop
head has returned (`pollStop` is its only enabled transition when the signal
is up at the loop head), and from then on no step of the system moves it
again: its ghost log of derivations is frozen — it performs no further
derivation work — and, since only a running worker's `noMatch` transition
touches the counter, it performs no further increments; likewise the reporter
never samples or emits again after taking its `<-stopChan` branch. -/
theorem C7_no_work_after_stop (cfg : Config) (s s' : Sys) (h : Reaches cfg s s') :
    (∀ (i : Nat) (d : List DeriveOutcome),
      s.workers[i]? = some (.exited d) → s'.workers[i]? = some (.exited d)) ∧
    (∀ (l : Nat) (ds : List Nat),
      s.reporter = .repExited l ds → s'.reporter = .repExited l ds) := by
  induction h with
  | refl => exact ⟨fun _ _ hh => hh, fun _ _ hh => hh⟩
  | tail hab hbc ih =>
    have hf := step_exited_frozen hbc
    exact ⟨fun i d hh => hf.1 i d (ih.1 i d hh),
           fun l ds hh => hf.2 l ds (ih.2 l ds hh)⟩

/-- Witness for C7: after the race both workers are exited, and a further
reporter tick leaves both of them exited with unchanged logs. -/
theorem C7_no_work_after_stop_witness :
    t2.workers[0]? = some (.exited [.ok seedB addrM]) ∧
    t2.workers[1]? = some (.exited [.ok seedC addrM2]) := by
  have h := C7_no_work_after_stop cfg1 e2 t2
    (Relation.ReflTransGen.single (Step.tick e2 0 [] rfl))
  exact ⟨h.1 0 [.ok seedB addrM] rfl, h.1 1 [.ok seedC addrM2] rfl⟩

/-- **C10.** At the end of every run (every worker has exited) the shared
counter equals exactly the number of iterations, across all workers, whose
derivation succeeded and whose address did not match the suffix: matching
(winning) candidates and failed derivations are never counted. -/
theorem C10_final_counter (cfg : Config) (oracles : List (List DeriveOutcome))
    (s : Sys) (h : Reaches cfg (initSys oracles) s)
    (_hend : allExited s = true) :
    s.shared.counter = countedTotal cfg s :=
  reaches_counter_counted h

/-- Witness for C10 on the completed single-worker run: the counter is 1 and
exactly one of the three processed iterations (the non-matching successful
one) is counted. -/
theorem C10_final_counter_witness : e1.shared.counter = countedTotal cfg1 e1 :=
  C10_final_counter cfg1 or1 e1 reaches_e1 rfl

/-- Witness for C9 at a concrete found wallet whose file write fails. -/
theorem C9_persistence_witness :
    (printFoundWallet "s 1" "xab" "out.txt" "2024-01-01 00:00:00" false).write =
      some ⟨"out.txt",
        "=== FOUND 2024-01-01 00:00:00 ===\nSeed: s 1\nAddress: xab\n\n",
        true, true⟩ ∧
    (printFoundWallet "s 1" "xab" "out.txt" "2024-01-01 00:00:00" false).warning =
      some "Failed to write to file" ∧
    (printFoundWallet "s 1" "xab" "out.txt" "2024-01-01 00:00:00" false).console =
      displayLines "s 1" "xab" := by
  have h := C9_persistence "s 1" "xab" "out.txt" "2024-01-01 00:00:00" false
    (by decide)
  exact ⟨h.1, (h.2.2 rfl).1, (h.2.2 rfl).2⟩

end Tongen
